import Mathlib

/-!
Verification development for the go-be-lazy library: a generic in-process
cache with lazy loading. We give a sequential shallow embedding of the
core data model (`Value` cells, expiry policies, eviction policies) and of
the `Map` orchestrator from `lazy.go`, and prove the specified properties
about them. Wall-clock time is modelled as a natural number passed
explicitly at each point where the Go code calls `time.Now()`; the zero
time is `0`. Go errors are modelled by the inductive `GoErr`, with `none`
standing for a nil error. The embedding assumes the non-nil map pointer
and non-nil mutex preconditions of `Map` (its two configuration-error
early returns are not reached by any property proved here).
-/

namespace GoBeLazy

/-- Model of Go `error` values appearing in the library: the three sentinel
errors from `lazy.go`, caller-supplied fetch errors (`user`), and the
wrapping performed by `fmt.Errorf("fetch error: %w", err)` under the
`Must` option. -/
inductive GoErr where
  | mapPointerNil
  | mapMutexNil
  | valueNotCached
  | user (n : Nat)
  | fetchWrap (e : GoErr)
deriving DecidableEq, Repr

/-- The stored result of a cell: `result[T]` from `lazy.go`
(`value`, `err`, `createdAt`). -/
structure StoredResult (V : Type) where
  value : V
  err : Option GoErr
  createdAt : Nat
deriving DecidableEq, Repr

/-- A lazily loaded cell: `Value[T]` from `lazy.go`. `val` is the atomic
result slot (`none` = not loaded), `uses` the access counter, `canceled`
the released/canceled flag. -/
structure Cell (V : Type) where
  val : Option (StoredResult V) := none
  uses : Nat := 0
  canceled : Bool := false
deriving DecidableEq, Repr

namespace Cell

variable {V : Type}

/-- `Value.Load`: if a result is stored, return it and bump `uses` without
invoking the function; otherwise store the function's result (`r` is the
pair `fn` would return) stamped with `now`, bump `uses`, and report that
the function was invoked (third component `true`). -/
def load (c : Cell V) (r : V × Option GoErr) (now : Nat) :
    (V × Option GoErr) × Cell V × Bool :=
  match c.val with
  | some s => ((s.value, s.err), { c with uses := c.uses + 1 }, false)
  | none =>
      (r, { c with val := some ⟨r.1, r.2, now⟩, uses := c.uses + 1 }, true)

/-- `Value.Set`: write only when empty; no-op otherwise; no use recorded. -/
def set (c : Cell V) (v : V) (now : Nat) : Cell V :=
  match c.val with
  | some _ => c
  | none => { c with val := some ⟨v, none, now⟩ }

/-- `Value.Store`: forced write bypassing once-semantics. -/
def store (c : Cell V) (v : V) (now : Nat) : Cell V :=
  { c with val := some ⟨v, none, now⟩ }

/-- `Value.Peek`: on a hit return the stored value, `true`, and bump
`uses`; on a miss return the zero value and `false`, cell unchanged. -/
def peek [Inhabited V] (c : Cell V) : V × Bool × Cell V :=
  match c.val with
  | some s => (s.value, true, { c with uses := c.uses + 1 })
  | none => (default, false, c)

/-- `Value.CreatedAt`: timestamp of the stored result, zero time if unset. -/
def createdAt (c : Cell V) : Nat :=
  match c.val with
  | some s => s.createdAt
  | none => 0

/-- `Value.IsLoaded`. -/
def isLoaded (c : Cell V) : Bool := c.val.isSome

/-- `Value.Cancel`. -/
def cancel (c : Cell V) : Cell V := { c with canceled := true }

end Cell

/-- Expiry policies from `expiry.go`, as a closed set of variants.
`custom none` models `ExpireCustom` with a nil predicate; `ctx sig`
models `ExpireContext` where `sig` is whether `ctx.Err() != nil` at
evaluation time. -/
inductive Expiry (V : Type) where
  | expAt (t : Nat)
  | expAfter (d : Nat)
  | afterUses (n : Int)
  | all (ps : List (Expiry V))
  | anyOf (ps : List (Expiry V))
  | never
  | custom (f : Option (Cell V → Bool))
  | ctx (sig : Bool)

mutual

/-- `IsExpired` for each expiry variant. Every variant first reports a
canceled (released) cell as expired, exactly as every `IsExpired`
implementation in `expiry.go` begins with the released check. -/
def isExpired {V : Type} : Expiry V → Nat → Cell V → Bool
  | e, now, c =>
    if c.canceled then true
    else
      match e with
      | .expAt t => decide (now > t)
      | .expAfter d =>
          if c.createdAt = 0 then false else decide (now - c.createdAt > d)
      | .afterUses n => decide ((c.uses : Int) ≥ n)
      | .all ps => if ps.isEmpty then false else allExpired ps now c
      | .anyOf ps => anyExpired ps now c
      | .never => false
      | .custom f =>
          match f with
          | none => false
          | some f => f c
      | .ctx sig => sig

/-- Conjunction loop of `expireAll.IsExpired`. -/
def allExpired {V : Type} : List (Expiry V) → Nat → Cell V → Bool
  | [], _, _ => true
  | p :: rest, now, c => isExpired p now c && allExpired rest now c

/-- Disjunction loop of `expireAny.IsExpired`. -/
def anyExpired {V : Type} : List (Expiry V) → Nat → Cell V → Bool
  | [], _, _ => false
  | p :: rest, now, c => isExpired p now c || anyExpired rest now c

end

section AssocOps

variable {K : Type} {A : Type} [DecidableEq K]

/-- Lookup of the first binding of `k` in an association list (the model
of the Go map read `(*m)[id]`). -/
def alookup : List (K × A) → K → Option A
  | [], _ => none
  | (k', v) :: rest, k => if k' = k then some v else alookup rest k

/-- Removal of the first binding of `k` (the model of `delete(*m, id)`). -/
def aerase : List (K × A) → K → List (K × A)
  | [], _ => []
  | (k', v) :: rest, k =>
      if k' = k then rest else (k', v) :: aerase rest k

/-- In-place replacement of the first binding of `k` (the model of a map
assignment to a present key, and of a per-cell mutation through the
shared pointer). -/
def aupdate : List (K × A) → K → A → List (K × A)
  | [], _, _ => []
  | (k', v) :: rest, k, v' =>
      if k' = k then (k', v') :: rest else (k', v) :: aupdate rest k v'

end AssocOps

/-- A cell together with an identity tag. Fresh allocations
(`&Value[V]{}` in Go) receive distinct tags, so `cid` equality models Go
pointer equality between cell instances. -/
structure CellI (V : Type) where
  cid : Nat
  cell : Cell V
deriving DecidableEq, Repr

/-- The cache map state: the association list of entries (the Go map
`map[K]*Value[V]`) plus the allocator counter for fresh cell identities. -/
structure MState (K V : Type) where
  entries : List (K × CellI V)
  nextId : Nat
deriving DecidableEq, Repr

/-- An eviction policy with internal state of type `S`: the
`EvictionPolicy[K, V]` interface from `policies.go`, with its mutable
bookkeeping made explicit. -/
structure EvictPolicy (K V S : Type) where
  access : S → K → S
  selectVictim : S → List (K × CellI V) → Option K × S

/-- `RandomEvictionPolicy`: `Access` is a no-op; `SelectVictim` returns a
key produced by ranging over the map (here: the first entry). -/
def randomPolicy (K V : Type) : EvictPolicy K V Unit where
  access := fun s _ => s
  selectVictim := fun s m =>
    match m with
    | [] => (none, s)
    | (k, _) :: _ => (some k, s)

/-- `NoEvictionPolicy`: `Access` is a no-op and `SelectVictim` always
reports no victim found. -/
def noEvictionPolicy (K V : Type) : EvictPolicy K V Unit where
  access := fun s _ => s
  selectVictim := fun s _ => (none, s)

/-- `LRUEvictionPolicy.Access` on the recency queue (front = most
recently used): move an existing key to the front, or push a new key at
the front. -/
def lruAccess {K : Type} [DecidableEq K] (q : List K) (k : K) : List K :=
  if k ∈ q then k :: q.erase k else k :: q

/-- The victim-scanning loop of `LRUEvictionPolicy.SelectVictim`, acting
on the queue listed back-first: pop tracked keys from the back, discarding
any no longer present in the map, until a present one is found. -/
def lruScan {K V : Type} [DecidableEq K] :
    List K → List (K × CellI V) → Option K × List K
  | [], _ => (none, [])
  | k :: rest, m =>
      if (alookup m k).isSome then (some k, rest) else lruScan rest m

/-- `LRUEvictionPolicy.SelectVictim`: scan from the back of the queue,
removing what is scanned; if the whole queue was stale (now empty), fall
back to an arbitrary present key (the first entry of the map). -/
def lruSelectVictim {K V : Type} [DecidableEq K] (q : List K)
    (m : List (K × CellI V)) : Option K × List K :=
  match lruScan q.reverse m with
  | (some k, rest) => (some k, rest.reverse)
  | (none, _) =>
      match m with
      | [] => (none, [])
      | (k, _) :: _ => (some k, [])

/-- `LRUEvictionPolicy` with its queue state (front = most recent). -/
def lruPolicy (K V : Type) [DecidableEq K] : EvictPolicy K V (List K) where
  access := lruAccess
  selectVictim := lruSelectVictim

/-- The option record built by `Map` from its `Option` arguments
(`args[K, V]` in `lazy.go`). `evictionPolicy` is supplied separately to
`mapGo`; `cancelDest` records whether a release-callback sink was
passed. -/
structure Args (K V : Type) where
  dontFetch : Bool := false
  refresh : Bool := false
  clear : Bool := false
  must : Bool := false
  mustCached : Bool := false
  setID : Option K := none
  setValue : Option V := none
  defaultValue : Option V := none
  maxSize : Nat := 0
  expiry : Option (Expiry V) := none
  cancelDest : Bool := false

/-- The outcome of one `Map` call: returned value and error, the new map
state, the new eviction-policy state, whether the fetch function was
invoked during this call, and the `(key, cell identity)` captured by the
release callback when a sink was supplied. -/
structure MapOut (K V S : Type) where
  value : V
  err : Option GoErr
  state : MState K V
  pstate : S
  fetched : Bool
  cb : Option (K × Nat)

/-- Apply `Access` through an optional policy. -/
def polAccess {K V S : Type} (pol : Option (EvictPolicy K V S)) (s : S)
    (k : K) : S :=
  match pol with
  | none => s
  | some p => p.access s k

/-- The `ProcessValue` phase of `Map` (`lazy.go` lines 295-364): release
wiring, manual set, peek, don't-fetch handling, and the once-only load
with error handling, with every cell mutation written back to the map
entry it came from. -/
def processValue {K V S : Type} [DecidableEq K] [Inhabited V]
    (pol : Option (EvictPolicy K V S)) (a : Args K V) (id : K)
    (lv : CellI V) (st : MState K V) (ps : S)
    (fetch : Option (K → V × Option GoErr)) (now : Nat) : MapOut K V S :=
  let cb : Option (K × Nat) := if a.cancelDest then some (id, lv.cid) else none
  match a.setValue with
  | some v =>
      let c' : CellI V := ⟨lv.cid, lv.cell.set v now⟩
      ⟨v, none, { st with entries := aupdate st.entries id c' }, polAccess pol ps id, false, cb⟩
  | none =>
    match lv.cell.peek with
    | (pv, loaded, c1) =>
      let st1 : MState K V :=
        { st with entries := aupdate st.entries id ⟨lv.cid, c1⟩ }
      if loaded then
        ⟨pv, none, st1, polAccess pol ps id, false, cb⟩
      else if a.dontFetch then
        if a.mustCached then ⟨default, some .valueNotCached, st1, ps, false, cb⟩
        else
          match a.defaultValue with
          | some d => ⟨d, none, st1, ps, false, cb⟩
          | none => ⟨pv, none, st1, ps, false, cb⟩
      else
        match fetch with
        | none => ⟨default, none, st1, ps, false, cb⟩
        | some f =>
          match c1.load (f id) now with
          | ((v, err), c2, invoked) =>
            let st2 : MState K V :=
              { st with entries := aupdate st.entries id ⟨lv.cid, c2⟩ }
            match err with
            | some e =>
                match a.defaultValue, a.must with
                | some d, false =>
                    let c3 : CellI V := ⟨lv.cid, c2.store d now⟩
                    ⟨d, none,
                      { st with entries := aupdate st.entries id c3 },
                      polAccess pol ps id, invoked, cb⟩
                | _, true => ⟨v, some (.fetchWrap e), st2, ps, invoked, cb⟩
                | none, false => ⟨v, some e, st2, ps, invoked, cb⟩
            | none => ⟨v, none, st2, polAccess pol ps id, invoked, cb⟩

/-- Whether the structural phase regards the present cell as expired:
`args.expiry != nil && val.IsLoaded() && args.expiry.IsExpired(val)`,
the guard used identically on the shared-view path and the exclusive
re-check of `Map`. -/
def expiryHit {K V : Type} (a : Args K V) (now : Nat) (c : Cell V) : Bool :=
  match a.expiry with
  | none => false
  | some e => c.isLoaded && isExpired e now c

/-- The capacity-eviction step taken by `Map` on a genuine miss
(`lazy.go` lines 276-289): when a maximum size is configured and the map
is at or over it, ask the configured eviction policy for a victim and
remove it when one is found; with no policy configured, fall back to
removing an arbitrary present key (ranging over the map). When the
configured policy finds no victim, nothing is removed. -/
def evictIfFull {K V S : Type} [DecidableEq K]
    (pol : Option (EvictPolicy K V S)) (a : Args K V)
    (es : List (K × CellI V)) (ps : S) : List (K × CellI V) × S :=
  if a.maxSize > 0 ∧ es.length ≥ a.maxSize then
    match pol with
    | some p =>
        match p.selectVictim ps es with
        | (some victim, ps') => (aerase es victim, ps')
        | (none, ps') => (es, ps')
    | none =>
        match es with
        | [] => ([], ps)
        | (k, _) :: _ => (aerase es k, ps)
  else (es, ps)

/-- The `Map` orchestrator of `lazy.go`, sequentially: key override,
clear, the (collapsed) double-checked structural phase with expiry
replacement, refresh overwrite, capacity eviction on a genuine miss, and
fresh-cell installation, followed by `processValue`. -/
def mapGo {K V S : Type} [DecidableEq K] [Inhabited V]
    (pol : Option (EvictPolicy K V S)) (a : Args K V) (st : MState K V)
    (ps : S) (id0 : K) (fetch : Option (K → V × Option GoErr))
    (now : Nat) : MapOut K V S :=
  let id := a.setID.getD id0
  if a.clear then
    ⟨default, none, { st with entries := aerase st.entries id }, ps, false, none⟩
  else
    match alookup st.entries id with
    | some c =>
        if a.refresh then
          let fresh : CellI V := ⟨st.nextId, {}⟩
          processValue pol a id fresh
            ⟨aupdate st.entries id fresh, st.nextId + 1⟩ ps fetch now
        else if expiryHit a now c.cell then
          let fresh : CellI V := ⟨st.nextId, {}⟩
          processValue pol a id fresh
            ⟨aupdate st.entries id fresh, st.nextId + 1⟩ ps fetch now
        else processValue pol a id c st ps fetch now
    | none =>
        let evicted := evictIfFull pol a st.entries ps
        let fresh : CellI V := ⟨st.nextId, {}⟩
        processValue pol a id fresh
          ⟨evicted.1 ++ [(id, fresh)], st.nextId + 1⟩ evicted.2 fetch now

/-- Invocation of the release callback produced by `Map` for sink option
`WithCancel`: mark the captured cell canceled, then delete the map entry
for the captured key only if it still holds the very cell instance the
callback was created for (cell identity `cid`). When the entry has been
replaced, cancelling the detached old cell leaves the map unchanged. -/
def invokeCancel {K V : Type} [DecidableEq K] (es : List (K × CellI V))
    (id : K) (cid : Nat) : List (K × CellI V) :=
  match alookup es id with
  | some c => if c.cid = cid then aerase es id else es
  | none => es

/-- An eviction policy that, on any non-empty map, selects a victim that
is actually present — as the random, LRU, FIFO and LFU policies do. -/
def SelectsPresent {K V S : Type} [DecidableEq K]
    (p : EvictPolicy K V S) : Prop :=
  ∀ (ps : S) (es : List (K × CellI V)), es ≠ [] →
    ∃ k ps', p.selectVictim ps es = (some k, ps') ∧ (alookup es k).isSome


/-- One step of the LRU example scenario: a `Map` call with max-size 2
and the LRU policy, over `Nat` keys and values. -/
def lruStep (st : MState Nat Nat) (q : List Nat) (id : Nat) :
    MapOut Nat Nat (List Nat) :=
  mapGo (some (lruPolicy Nat Nat)) { maxSize := 2 } st q id
    (some fun k => (k * 10, none)) 0

/-- Insert key 1 into the empty map (capacity 2, LRU). -/
def lruRun1 : MapOut Nat Nat (List Nat) := lruStep ⟨[], 0⟩ [] 1

/-- Then insert key 2. -/
def lruRun2 : MapOut Nat Nat (List Nat) :=
  lruStep lruRun1.state lruRun1.pstate 2

/-- Then access key 1 (a cache hit). -/
def lruRun3 : MapOut Nat Nat (List Nat) :=
  lruStep lruRun2.state lruRun2.pstate 1

/-- Then insert key 3, forcing an eviction. -/
def lruRun4 : MapOut Nat Nat (List Nat) :=
  lruStep lruRun3.state lruRun3.pstate 3


/-- One `Map` resolution with the `ExpireAfterUses n` policy configured
and no other options, on fetch function `f` and key `id`. -/
def c3Step {K V : Type} [DecidableEq K] [Inhabited V] (n : Int)
    (f : K → V × Option GoErr) (id : K) (now : Nat) (st : MState K V) :
    MapOut K V Unit :=
  mapGo (S := Unit) none { expiry := some (.afterUses n) } st () id
    (some f) now

/-- The map state after `k` sequential `ExpireAfterUses n` resolutions of
`id`, starting from the empty map. -/
def c3State {K V : Type} [DecidableEq K] [Inhabited V] (n : Int)
    (f : K → V × Option GoErr) (id : K) (now : Nat) : Nat → MState K V
  | 0 => ⟨[], 0⟩
  | k + 1 => (c3Step n f id now (c3State n f id now k)).state

/-- The outcome of the `k`-th sequential resolution (`k ≥ 1`). -/
def c3Res {K V : Type} [DecidableEq K] [Inhabited V] (n : Int)
    (f : K → V × Option GoErr) (id : K) (now : Nat) (k : Nat) :
    MapOut K V Unit :=
  c3Step n f id now (c3State n f id now (k - 1))


section AssocLemmas

variable {K : Type} {A : Type} [DecidableEq K]

theorem alookup_nil (k : K) : alookup ([] : List (K × A)) k = none := rfl

theorem length_aupdate (es : List (K × A)) (k : K) (v : A) :
    (aupdate es k v).length = es.length := by
  induction es with
  | nil => rfl
  | cons hd tl ih =>
      obtain ⟨k', w⟩ := hd
      by_cases h : k' = k
      · simp [aupdate, h]
      · simp [aupdate, h, ih]

theorem length_aerase_le (es : List (K × A)) (k : K) :
    (aerase es k).length ≤ es.length := by
  induction es with
  | nil => simp [aerase]
  | cons hd tl ih =>
      obtain ⟨k', w⟩ := hd
      by_cases h : k' = k
      · simp only [aerase, if_pos h, List.length_cons]
        omega
      · simp only [aerase, if_neg h, List.length_cons]
        omega

theorem length_aerase_of_mem (es : List (K × A)) (k : K)
    (h : (alookup es k).isSome) :
    (aerase es k).length + 1 = es.length := by
  induction es with
  | nil => simp [alookup] at h
  | cons hd tl ih =>
      obtain ⟨k', w⟩ := hd
      by_cases hk : k' = k
      · simp [aerase, hk]
      · simp [alookup, hk] at h
        simp [aerase, hk, ih h]

theorem alookup_aerase_ne (es : List (K × A)) (k k' : K) (h : k' ≠ k) :
    alookup (aerase es k) k' = alookup es k' := by
  induction es with
  | nil => rfl
  | cons hd tl ih =>
      obtain ⟨k₀, w⟩ := hd
      by_cases hk : k₀ = k
      · subst hk
        have hne : ¬ k₀ = k' := fun hh => h hh.symm
        simp [aerase, alookup, hne]
      · by_cases hk' : k₀ = k' <;> simp [aerase, alookup, hk, hk', ih, h]

theorem alookup_aupdate_self (es : List (K × A)) (k : K) (v : A)
    (h : (alookup es k).isSome) :
    alookup (aupdate es k v) k = some v := by
  induction es with
  | nil => simp [alookup] at h
  | cons hd tl ih =>
      obtain ⟨k₀, w⟩ := hd
      by_cases hk : k₀ = k
      · simp [aupdate, alookup, hk]
      · simp [alookup, hk] at h
        simp [aupdate, alookup, hk, ih h]

theorem alookup_aupdate_ne (es : List (K × A)) (k k' : K) (v : A)
    (h : k' ≠ k) : alookup (aupdate es k v) k' = alookup es k' := by
  induction es with
  | nil => rfl
  | cons hd tl ih =>
      obtain ⟨k₀, w⟩ := hd
      by_cases hk : k₀ = k
      · subst hk
        have hne : ¬ k₀ = k' := fun hh => h hh.symm
        simp [aupdate, alookup, hne]
      · by_cases hk' : k₀ = k' <;> simp [aupdate, alookup, hk, hk', ih, h]

theorem alookup_append_right (es : List (K × A)) (k : K) (v : A)
    (h : alookup es k = none) :
    alookup (es ++ [(k, v)]) k = some v := by
  induction es with
  | nil => simp [alookup]
  | cons hd tl ih =>
      obtain ⟨k₀, w⟩ := hd
      by_cases hk : k₀ = k
      · simp [alookup, hk] at h
      · simp [alookup, hk] at h ⊢
        exact ih h

theorem alookup_head (k : K) (v : A) (tl : List (K × A)) :
    alookup ((k, v) :: tl) k = some v := by simp [alookup]

end AssocLemmas

theorem isExpired_of_canceled {V : Type} (e : Expiry V) (now : Nat)
    (c : Cell V) (h : c.canceled = true) : isExpired e now c = true := by
  rw [isExpired.eq_def]
  simp [h]

theorem allExpired_iff {V : Type} (ps : List (Expiry V)) (now : Nat)
    (c : Cell V) :
    allExpired ps now c = true ↔ ∀ p ∈ ps, isExpired p now c = true := by
  induction ps with
  | nil => simp [allExpired]
  | cons hd tl ih => simp [allExpired, ih]

theorem anyExpired_iff {V : Type} (ps : List (Expiry V)) (now : Nat)
    (c : Cell V) :
    anyExpired ps now c = true ↔ ∃ p ∈ ps, isExpired p now c = true := by
  induction ps with
  | nil => simp [anyExpired]
  | cons hd tl ih => simp [anyExpired, ih]

theorem processValue_entries_length {K V S : Type} [DecidableEq K]
    [Inhabited V] (pol : Option (EvictPolicy K V S)) (a : Args K V)
    (id : K) (lv : CellI V) (st : MState K V) (ps : S)
    (fetch : Option (K → V × Option GoErr)) (now : Nat) :
    (processValue pol a id lv st ps fetch now).state.entries.length =
      st.entries.length := by
  unfold processValue
  repeat' split
  all_goals simp [length_aupdate]

theorem processValue_nextId {K V S : Type} [DecidableEq K]
    [Inhabited V] (pol : Option (EvictPolicy K V S)) (a : Args K V)
    (id : K) (lv : CellI V) (st : MState K V) (ps : S)
    (fetch : Option (K → V × Option GoErr)) (now : Nat) :
    (processValue pol a id lv st ps fetch now).state.nextId = st.nextId := by
  unfold processValue
  repeat' split
  all_goals rfl

theorem processValue_lookup_cid {K V S : Type} [DecidableEq K]
    [Inhabited V] (pol : Option (EvictPolicy K V S)) (a : Args K V)
    (id : K) (lv : CellI V) (st : MState K V) (ps : S)
    (fetch : Option (K → V × Option GoErr)) (now : Nat)
    (hpres : alookup st.entries id = some lv) :
    ∃ c', alookup (processValue pol a id lv st ps fetch now).state.entries
        id = some c' ∧ c'.cid = lv.cid := by
  have hs : (alookup st.entries id).isSome := by simp [hpres]
  unfold processValue
  repeat' split
  all_goals exact ⟨_, alookup_aupdate_self st.entries id _ hs, rfl⟩

theorem processValue_cb {K V S : Type} [DecidableEq K]
    [Inhabited V] (pol : Option (EvictPolicy K V S)) (a : Args K V)
    (id : K) (lv : CellI V) (st : MState K V) (ps : S)
    (fetch : Option (K → V × Option GoErr)) (now : Nat) :
    (processValue pol a id lv st ps fetch now).cb =
      if a.cancelDest then some (id, lv.cid) else none := by
  unfold processValue
  repeat' split
  all_goals rfl

theorem expiryHit_not_loaded {K V : Type} (a : Args K V) (now : Nat)
    (c : Cell V) (h : c.isLoaded = false) : expiryHit a now c = false := by
  cases he : a.expiry <;> simp [expiryHit, he, h]

theorem evictIfFull_maxSize_zero {K V S : Type} [DecidableEq K]
    (pol : Option (EvictPolicy K V S)) (a : Args K V)
    (es : List (K × CellI V)) (ps : S) (hms : a.maxSize = 0) :
    evictIfFull pol a es ps = (es, ps) := by
  unfold evictIfFull
  simp [hms]

theorem processValue_dontFetch_eq {K V S : Type} [DecidableEq K]
    [Inhabited V] (pol : Option (EvictPolicy K V S)) (a : Args K V)
    (id : K) (lv : CellI V) (st : MState K V) (ps : S)
    (fetch : Option (K → V × Option GoErr)) (now : Nat)
    (hnl : lv.cell.val = none) (hsv : a.setValue = none)
    (hdf : a.dontFetch = true) :
    processValue pol a id lv st ps fetch now =
      ⟨if a.mustCached then default else a.defaultValue.getD default,
       if a.mustCached then some .valueNotCached else none,
       { st with entries := aupdate st.entries id ⟨lv.cid, lv.cell⟩ }, ps,
       false, if a.cancelDest then some (id, lv.cid) else none⟩ := by
  have hpeek : lv.cell.peek = (default, false, lv.cell) := by
    simp [Cell.peek, hnl]
  simp only [processValue, hsv, hpeek, hdf]
  cases a.mustCached
  · cases hd : a.defaultValue <;> simp [hd]
  · simp

theorem processValue_fetchNil_eq {K V S : Type} [DecidableEq K]
    [Inhabited V] (pol : Option (EvictPolicy K V S)) (a : Args K V)
    (id : K) (lv : CellI V) (st : MState K V) (ps : S) (now : Nat)
    (hnl : lv.cell.val = none) (hsv : a.setValue = none)
    (hdf : a.dontFetch = false) :
    processValue pol a id lv st ps none now =
      ⟨default, none,
       { st with entries := aupdate st.entries id ⟨lv.cid, lv.cell⟩ }, ps,
       false, if a.cancelDest then some (id, lv.cid) else none⟩ := by
  have hpeek : lv.cell.peek = (default, false, lv.cell) := by
    simp [Cell.peek, hnl]
  simp only [processValue, hsv, hpeek, hdf]
  simp

theorem alookup_aerase_none {K A : Type} [DecidableEq K]
    (es : List (K × A)) (j k : K) (h : alookup es k = none) :
    alookup (aerase es j) k = none := by
  induction es with
  | nil => rfl
  | cons hd tl ih =>
      obtain ⟨k₀, w⟩ := hd
      by_cases hk : k₀ = k
      · simp [alookup, hk] at h
      · simp only [alookup, if_neg hk] at h
        by_cases hj : k₀ = j
        · simp [aerase, hj, h]
        · simp [aerase, hj, alookup, hk, ih h]

theorem alookup_evictIfFull_none {K V S : Type} [DecidableEq K]
    (pol : Option (EvictPolicy K V S)) (a : Args K V)
    (es : List (K × CellI V)) (ps : S) (k : K)
    (h : alookup es k = none) :
    alookup (evictIfFull pol a es ps).1 k = none := by
  unfold evictIfFull
  repeat' split
  all_goals first
    | exact h
    | exact alookup_aerase_none _ _ _ h

theorem processValue_hit_eq {K V S : Type} [DecidableEq K] [Inhabited V]
    (pol : Option (EvictPolicy K V S)) (a : Args K V) (id : K)
    (lv : CellI V) (st : MState K V) (ps : S)
    (fetch : Option (K → V × Option GoErr)) (now : Nat)
    (s : StoredResult V) (hv : lv.cell.val = some s)
    (hsv : a.setValue = none) :
    processValue pol a id lv st ps fetch now =
      ⟨s.value, none,
       { st with entries := (aupdate st.entries id
           ⟨lv.cid, { lv.cell with uses := lv.cell.uses + 1 }⟩) },
       polAccess pol ps id, false,
       if a.cancelDest then some (id, lv.cid) else none⟩ := by
  have hpeek : lv.cell.peek =
      (s.value, true, { lv.cell with uses := lv.cell.uses + 1 }) := by
    simp [Cell.peek, hv]
  simp only [processValue, hsv, hpeek]
  simp

theorem processValue_load_ok_eq {K V S : Type} [DecidableEq K] [Inhabited V]
    (pol : Option (EvictPolicy K V S)) (a : Args K V) (id : K)
    (lv : CellI V) (st : MState K V) (ps : S)
    (f : K → V × Option GoErr) (now : Nat)
    (hnl : lv.cell.val = none) (hsv : a.setValue = none)
    (hdf : a.dontFetch = false) (hok : (f id).2 = none) :
    processValue pol a id lv st ps (some f) now =
      ⟨(f id).1, none,
       { st with entries := (aupdate st.entries id
           ⟨lv.cid, { val := some ⟨(f id).1, none, now⟩,
                      uses := lv.cell.uses + 1,
                      canceled := lv.cell.canceled }⟩) },
       polAccess pol ps id, true,
       if a.cancelDest then some (id, lv.cid) else none⟩ := by
  have hpeek : lv.cell.peek = (default, false, lv.cell) := by
    simp [Cell.peek, hnl]
  have hload : lv.cell.load (f id) now =
      (((f id).1, none),
       { val := some ⟨(f id).1, none, now⟩, uses := lv.cell.uses + 1,
         canceled := lv.cell.canceled }, true) := by
    simp only [Cell.load, hnl]
    rw [← hok]
  simp only [processValue, hsv, hpeek, hdf]
  simp only [Bool.false_eq_true, if_false, hload]

theorem processValue_fail_default_eq {K V S : Type} [DecidableEq K]
    [Inhabited V] (pol : Option (EvictPolicy K V S)) (a : Args K V)
    (id : K) (lv : CellI V) (st : MState K V) (ps : S)
    (f : K → V × Option GoErr) (now : Nat) (d : V) (e : GoErr)
    (hnl : lv.cell.val = none) (hsv : a.setValue = none)
    (hdf : a.dontFetch = false) (hmust : a.must = false)
    (hd : a.defaultValue = some d) (he : (f id).2 = some e) :
    processValue pol a id lv st ps (some f) now =
      ⟨d, none,
       { st with entries := (aupdate st.entries id
           ⟨lv.cid, { val := some ⟨d, none, now⟩,
                      uses := lv.cell.uses + 1,
                      canceled := lv.cell.canceled }⟩) },
       polAccess pol ps id, true,
       if a.cancelDest then some (id, lv.cid) else none⟩ := by
  have hpeek : lv.cell.peek = (default, false, lv.cell) := by
    simp [Cell.peek, hnl]
  have hload : lv.cell.load (f id) now =
      (((f id).1, some e),
       { val := some ⟨(f id).1, some e, now⟩, uses := lv.cell.uses + 1,
         canceled := lv.cell.canceled }, true) := by
    simp only [Cell.load, hnl]
    rw [← he]
  simp only [processValue, hsv, hpeek, hdf]
  simp only [Bool.false_eq_true, if_false, hload, hd, hmust]
  simp [Cell.store]

theorem expiryHit_none {K V : Type} (a : Args K V) (now : Nat)
    (c : Cell V) (h : a.expiry = none) : expiryHit a now c = false := by
  simp [expiryHit, h]

/-- C2: the function passed to `Load` runs at most once per cell: on a
fresh cell the first `Load` invokes it and stores its result (value or
error); and on any cell holding a stored result, `Load` with any newly
supplied function returns exactly the stored value/error pair, does not
invoke the function, and leaves the stored result in place. -/
theorem C2_value_load_once {V : Type} (c : Cell V)
    (fn fn' : V × Option GoErr) (now now' : Nat) (h : c.val = none) :
    (c.load fn now).2.2 = true ∧
    ((c.load fn now).2.1).val = some ⟨fn.1, fn.2, now⟩ ∧
    ∀ (c' : Cell V) (s : StoredResult V), c'.val = some s →
      (c'.load fn' now').1 = (s.value, s.err) ∧
      (c'.load fn' now').2.2 = false ∧
      ((c'.load fn' now').2.1).val = some s := by
  refine ⟨by simp [Cell.load, h], by simp [Cell.load, h], ?_⟩
  intro c' s hs
  simp [Cell.load, hs]

theorem C2_value_load_once_witness :
    (({ val := none } : Cell Nat).load (7, some (.user 1)) 3).2.2 = true ∧
    ((({ val := none } : Cell Nat).load (7, some (.user 1)) 3).2.1).val =
      some ⟨7, some (.user 1), 3⟩ ∧
    ∀ (c' : Cell Nat) (s : StoredResult Nat), c'.val = some s →
      (c'.load (9, none) 4).1 = (s.value, s.err) ∧
      (c'.load (9, none) 4).2.2 = false ∧
      ((c'.load (9, none) 4).2.1).val = some s :=
  C2_value_load_once { val := none } (7, some (.user 1)) (9, none) 3 4 rfl

/-- C6: `ExpireAll ps` reports a cell expired exactly when it is canceled
or `ps` is non-empty with every sub-policy expired; `ExpireAny ps`
exactly when it is canceled or some sub-policy is expired; an empty list
never expires a non-canceled cell under either combinator; and a
canceled cell is expired under every variant. -/
theorem C6_expire_all_any {V : Type} (c : Cell V) (now : Nat)
    (ps : List (Expiry V)) :
    (isExpired (.all ps) now c = true ↔
      c.canceled = true ∨ (ps ≠ [] ∧ ∀ p ∈ ps, isExpired p now c = true)) ∧
    (isExpired (.anyOf ps) now c = true ↔
      c.canceled = true ∨ ∃ p ∈ ps, isExpired p now c = true) ∧
    (c.canceled = false →
      isExpired (.all ([] : List (Expiry V))) now c = false ∧
      isExpired (.anyOf ([] : List (Expiry V))) now c = false) ∧
    (∀ e : Expiry V, c.canceled = true → isExpired e now c = true) := by
  refine ⟨?_, ?_, ?_, fun e h => isExpired_of_canceled e now c h⟩
  · by_cases h : c.canceled = true
    · rw [isExpired.eq_def]
      simp [h]
    · simp only [Bool.not_eq_true] at h
      rw [isExpired.eq_def]
      simp [h, allExpired_iff]
  · by_cases h : c.canceled = true
    · rw [isExpired.eq_def]
      simp [h]
    · simp only [Bool.not_eq_true] at h
      rw [isExpired.eq_def]
      simp [h, anyExpired_iff]
  · intro h
    constructor
    · rw [isExpired.eq_def]
      simp [h]
    · rw [isExpired.eq_def]
      simp [h, anyExpired]

theorem C6_expire_all_any_witness :
    (isExpired (.all [.never, .ctx true]) 5 ({} : Cell Nat) = true ↔
      ({} : Cell Nat).canceled = true ∨
        ([(.never : Expiry Nat), .ctx true] ≠ [] ∧
          ∀ p ∈ [(.never : Expiry Nat), .ctx true],
            isExpired p 5 ({} : Cell Nat) = true)) ∧
    (isExpired (.anyOf [.never, .ctx true]) 5 ({} : Cell Nat) = true ↔
      ({} : Cell Nat).canceled = true ∨
        ∃ p ∈ [(.never : Expiry Nat), .ctx true],
          isExpired p 5 ({} : Cell Nat) = true) ∧
    (({} : Cell Nat).canceled = false →
      isExpired (.all ([] : List (Expiry Nat))) 5 ({} : Cell Nat) = false ∧
      isExpired (.anyOf ([] : List (Expiry Nat))) 5 ({} : Cell Nat) = false) ∧
    (∀ e : Expiry Nat, ({} : Cell Nat).canceled = true →
      isExpired e 5 ({} : Cell Nat) = true) :=
  C6_expire_all_any ({} : Cell Nat) 5 [.never, .ctx true]

/-- C8: at value resolution with an unloaded cell and don't-fetch set,
the fetch function is never invoked, the cell stays unloaded (nothing is
stored into it), and the outcome is: the not-cached sentinel error when
must-be-cached is set; otherwise the configured default with no error;
otherwise the zero value with no error. -/
theorem C8_dont_fetch {K V S : Type} [DecidableEq K] [Inhabited V]
    (pol : Option (EvictPolicy K V S)) (a : Args K V) (id : K)
    (lv : CellI V) (st : MState K V) (ps : S)
    (fetch : Option (K → V × Option GoErr)) (now : Nat)
    (hnl : lv.cell.val = none) (hsv : a.setValue = none)
    (hdf : a.dontFetch = true)
    (hpres : alookup st.entries id = some lv) :
    (processValue pol a id lv st ps fetch now).fetched = false ∧
    (∃ c, alookup
        (processValue pol a id lv st ps fetch now).state.entries id =
          some c ∧ c.cell.val = none) ∧
    (a.mustCached = true →
      (processValue pol a id lv st ps fetch now).value = default ∧
      (processValue pol a id lv st ps fetch now).err =
        some .valueNotCached) ∧
    (a.mustCached = false → ∀ d, a.defaultValue = some d →
      (processValue pol a id lv st ps fetch now).value = d ∧
      (processValue pol a id lv st ps fetch now).err = none) ∧
    (a.mustCached = false → a.defaultValue = none →
      (processValue pol a id lv st ps fetch now).value = default ∧
      (processValue pol a id lv st ps fetch now).err = none) := by
  have hs : (alookup st.entries id).isSome := by simp [hpres]
  rw [processValue_dontFetch_eq pol a id lv st ps fetch now hnl hsv hdf]
  refine ⟨rfl, ⟨⟨lv.cid, lv.cell⟩, ?_, hnl⟩, ?_, ?_, ?_⟩
  · exact alookup_aupdate_self st.entries id _ hs
  · intro h
    simp [h]
  · intro h d hd
    simp [h, hd]
  · intro h hd
    simp [h, hd]

theorem C8_dont_fetch_witness :
    (processValue (K := Nat) (V := Nat) (S := Unit) none
        { dontFetch := true, mustCached := true } 1 ⟨0, {}⟩
        ⟨[(1, ⟨0, {}⟩)], 1⟩ () none 0).fetched = false ∧
    (∃ c, alookup (processValue (K := Nat) (V := Nat) (S := Unit) none
        { dontFetch := true, mustCached := true } 1 ⟨0, {}⟩
        ⟨[(1, ⟨0, {}⟩)], 1⟩ () none 0).state.entries 1 =
          some c ∧ c.cell.val = none) ∧
    ((({ dontFetch := true, mustCached := true } : Args Nat Nat).mustCached
        = true) →
      (processValue (K := Nat) (V := Nat) (S := Unit) none
        { dontFetch := true, mustCached := true } 1 ⟨0, {}⟩
        ⟨[(1, ⟨0, {}⟩)], 1⟩ () none 0).value = default ∧
      (processValue (K := Nat) (V := Nat) (S := Unit) none
        { dontFetch := true, mustCached := true } 1 ⟨0, {}⟩
        ⟨[(1, ⟨0, {}⟩)], 1⟩ () none 0).err = some .valueNotCached) ∧
    ((({ dontFetch := true, mustCached := true } : Args Nat Nat).mustCached
        = false) → ∀ d,
      ({ dontFetch := true, mustCached := true } : Args Nat Nat).defaultValue
        = some d →
      (processValue (K := Nat) (V := Nat) (S := Unit) none
        { dontFetch := true, mustCached := true } 1 ⟨0, {}⟩
        ⟨[(1, ⟨0, {}⟩)], 1⟩ () none 0).value = d ∧
      (processValue (K := Nat) (V := Nat) (S := Unit) none
        { dontFetch := true, mustCached := true } 1 ⟨0, {}⟩
        ⟨[(1, ⟨0, {}⟩)], 1⟩ () none 0).err = none) ∧
    ((({ dontFetch := true, mustCached := true } : Args Nat Nat).mustCached
        = false) →
      ({ dontFetch := true, mustCached := true } : Args Nat Nat).defaultValue
        = none →
      (processValue (K := Nat) (V := Nat) (S := Unit) none
        { dontFetch := true, mustCached := true } 1 ⟨0, {}⟩
        ⟨[(1, ⟨0, {}⟩)], 1⟩ () none 0).value = default ∧
      (processValue (K := Nat) (V := Nat) (S := Unit) none
        { dontFetch := true, mustCached := true } 1 ⟨0, {}⟩
        ⟨[(1, ⟨0, {}⟩)], 1⟩ () none 0).err = none) :=
  C8_dont_fetch (K := Nat) (V := Nat) (S := Unit) none
    { dontFetch := true, mustCached := true } 1 ⟨0, {}⟩
    ⟨[(1, ⟨0, {}⟩)], 1⟩ () none 0 rfl rfl rfl rfl

/-- C9: `Map` evaluates the expiry policy only against loaded cells: a
present cell with no stored result is reused on resolution (same cell
identity, no fresh allocation), never deleted and replaced as expired,
whatever expiry policy is configured. -/
theorem C9_unloaded_cell_reused {K V S : Type} [DecidableEq K]
    [Inhabited V] (pol : Option (EvictPolicy K V S)) (a : Args K V)
    (st : MState K V) (ps : S) (id : K)
    (fetch : Option (K → V × Option GoErr)) (now : Nat) (c : CellI V)
    (hc : a.clear = false) (hr : a.refresh = false) (hid : a.setID = none)
    (hpres : alookup st.entries id = some c)
    (hnl : c.cell.isLoaded = false) :
    (∃ c', alookup (mapGo pol a st ps id fetch now).state.entries id =
        some c' ∧ c'.cid = c.cid) ∧
    (mapGo pol a st ps id fetch now).state.nextId = st.nextId := by
  have hhit : expiryHit a now c.cell = false :=
    expiryHit_not_loaded a now c.cell hnl
  simp only [mapGo, hid, Option.getD_none, hc, Bool.false_eq_true,
    if_false, hpres, hr, hhit]
  exact ⟨processValue_lookup_cid pol a id c st ps fetch now hpres,
    processValue_nextId pol a id c st ps fetch now⟩

theorem C9_unloaded_cell_reused_witness :
    (∃ c', alookup (mapGo (S := Unit) none
        ({ expiry := some (.ctx true) } : Args Nat Nat) ⟨[(4, ⟨7, {}⟩)], 9⟩
        () 4 (some fun k => (k, none)) 3).state.entries 4 = some c' ∧
      c'.cid = (⟨7, {}⟩ : CellI Nat).cid) ∧
    (mapGo (S := Unit) none ({ expiry := some (.ctx true) } : Args Nat Nat)
      ⟨[(4, ⟨7, {}⟩)], 9⟩ () 4 (some fun k => (k, none)) 3).state.nextId =
        9 :=
  C9_unloaded_cell_reused (S := Unit) none { expiry := some (.ctx true) }
    ⟨[(4, ⟨7, {}⟩)], 9⟩ () 4 (some fun k => (k, none)) 3 ⟨7, {}⟩
    rfl rfl rfl rfl rfl

/-- C10: a resolution of an absent key that is not a clear installs a
fresh empty cell before value resolution, so even a lookup-only miss
(don't-fetch, or no fetch function) grows the map by one entry holding
an unloaded cell, and the returned value is not stored in it. -/
theorem C10_miss_installs_cell {K V S : Type} [DecidableEq K]
    [Inhabited V] (pol : Option (EvictPolicy K V S)) (a : Args K V)
    (st : MState K V) (ps : S) (id : K)
    (fetch : Option (K → V × Option GoErr)) (now : Nat)
    (hc : a.clear = false) (hid : a.setID = none) (hsv : a.setValue = none)
    (hms : a.maxSize = 0) (habs : alookup st.entries id = none)
    (hdf : a.dontFetch = true ∨ fetch = none) :
    (mapGo pol a st ps id fetch now).state.entries.length =
      st.entries.length + 1 ∧
    (∃ c, alookup (mapGo pol a st ps id fetch now).state.entries id =
        some c ∧ c.cell.val = none ∧ c.cid = st.nextId) ∧
    (mapGo pol a st ps id fetch now).fetched = false := by
  simp only [mapGo, hid, Option.getD_none, hc, Bool.false_eq_true,
    if_false, habs, evictIfFull_maxSize_zero pol a st.entries ps hms]
  have hins : alookup (st.entries ++ [(id, (⟨st.nextId, {}⟩ : CellI V))])
      id = some ⟨st.nextId, {}⟩ := alookup_append_right st.entries id _ habs
  have hinss : (alookup
      (st.entries ++ [(id, (⟨st.nextId, {}⟩ : CellI V))]) id).isSome := by
    simp [hins]
  have hlen : (st.entries ++ [(id, (⟨st.nextId, {}⟩ : CellI V))]).length =
      st.entries.length + 1 := by simp
  rcases hdf with hdf | hdf
  · have key := processValue_dontFetch_eq pol a id
      (⟨st.nextId, { val := none, uses := 0, canceled := false }⟩ : CellI V)
      ⟨st.entries ++
        [(id, ⟨st.nextId, { val := none, uses := 0, canceled := false }⟩)],
        st.nextId + 1⟩ ps fetch now rfl hsv hdf
    rw [key]
    refine ⟨by simp [length_aupdate, hlen], ⟨⟨st.nextId, {}⟩, ?_, rfl, rfl⟩,
      rfl⟩
    exact alookup_aupdate_self _ id _ hinss
  · subst hdf
    by_cases hdf2 : a.dontFetch = true
    · have key := processValue_dontFetch_eq pol a id
        (⟨st.nextId, { val := none, uses := 0, canceled := false }⟩ : CellI V)
        ⟨st.entries ++
          [(id, ⟨st.nextId, { val := none, uses := 0, canceled := false }⟩)],
          st.nextId + 1⟩ ps none now rfl hsv hdf2
      rw [key]
      refine ⟨by simp [length_aupdate, hlen],
        ⟨⟨st.nextId, {}⟩, ?_, rfl, rfl⟩, rfl⟩
      exact alookup_aupdate_self _ id _ hinss
    · simp only [Bool.not_eq_true] at hdf2
      have key := processValue_fetchNil_eq pol a id
        (⟨st.nextId, { val := none, uses := 0, canceled := false }⟩ : CellI V)
        ⟨st.entries ++
          [(id, ⟨st.nextId, { val := none, uses := 0, canceled := false }⟩)],
          st.nextId + 1⟩ ps now rfl hsv hdf2
      rw [key]
      refine ⟨by simp [length_aupdate, hlen],
        ⟨⟨st.nextId, {}⟩, ?_, rfl, rfl⟩, rfl⟩
      exact alookup_aupdate_self _ id _ hinss

theorem C10_miss_installs_cell_witness :
    (mapGo (S := Unit) none ({ dontFetch := true } : Args Nat Nat)
      ⟨[], 0⟩ () 5 (some fun k => (k, none)) 0).state.entries.length =
        ([] : List (Nat × CellI Nat)).length + 1 ∧
    (∃ c, alookup (mapGo (S := Unit) none
        ({ dontFetch := true } : Args Nat Nat) ⟨[], 0⟩ () 5
        (some fun k => (k, none)) 0).state.entries 5 =
        some c ∧ c.cell.val = none ∧ c.cid = 0) ∧
    (mapGo (S := Unit) none ({ dontFetch := true } : Args Nat Nat)
      ⟨[], 0⟩ () 5 (some fun k => (k, none)) 0).fetched = false :=
  C10_miss_installs_cell (S := Unit) none { dontFetch := true } ⟨[], 0⟩ ()
    5 (some fun k => (k, none)) 0 rfl rfl rfl rfl rfl (Or.inl rfl)

/-- C4: with a release-callback sink supplied to a non-clear `Map` call,
the produced callback captures the resolved key and the identity of the
very cell resolved for it (which the call leaves installed at that key);
invoking a callback deletes the entry only when it still holds that
exact cell instance: with a different instance at the key (or no entry)
the map is left entirely unchanged, and in the deleting case every
other key's entry is untouched. -/
theorem C4_release_callback {K V S : Type} [DecidableEq K] [Inhabited V]
    (pol : Option (EvictPolicy K V S)) (a : Args K V) (st : MState K V)
    (ps : S) (id : K) (fetch : Option (K → V × Option GoErr)) (now : Nat)
    (hc : a.clear = false) (hcd : a.cancelDest = true) :
    (∃ cid, (mapGo pol a st ps id fetch now).cb =
        some (a.setID.getD id, cid) ∧
      ∃ c, alookup (mapGo pol a st ps id fetch now).state.entries
          (a.setID.getD id) = some c ∧ c.cid = cid) ∧
    (∀ (es : List (K × CellI V)) (k : K) (cid : Nat) (c : CellI V),
      alookup es k = some c → c.cid ≠ cid → invokeCancel es k cid = es) ∧
    (∀ (es : List (K × CellI V)) (k : K) (c : CellI V),
      alookup es k = some c → invokeCancel es k c.cid = aerase es k ∧
      ∀ k', k' ≠ k → alookup (aerase es k) k' = alookup es k') ∧
    (∀ (es : List (K × CellI V)) (k : K) (cid : Nat),
      alookup es k = none → invokeCancel es k cid = es) := by
  refine ⟨?_, ?_, ?_, ?_⟩
  · simp only [mapGo, hc, Bool.false_eq_true, if_false]
    rcases hl : alookup st.entries (a.setID.getD id) with _ | c
    · refine ⟨st.nextId, ?_, ?_⟩
      · rw [processValue_cb]
        simp [hcd]
      · refine processValue_lookup_cid _ _ _ _ _ _ _ _ ?_
        exact alookup_append_right _ _ _
          (alookup_evictIfFull_none pol a st.entries ps _ hl)
    · have hs : (alookup st.entries (a.setID.getD id)).isSome := by
        simp [hl]
      by_cases hr : a.refresh = true
      · simp only [hr, if_true]
        refine ⟨st.nextId, ?_, ?_⟩
        · rw [processValue_cb]
          simp [hcd]
        · exact processValue_lookup_cid _ _ _ _ _ _ _ _
            (alookup_aupdate_self _ _ _ hs)
      · simp only [Bool.not_eq_true] at hr
        simp only [hr, Bool.false_eq_true, if_false]
        by_cases hex : expiryHit a now c.cell = true
        · simp only [hex, if_true]
          refine ⟨st.nextId, ?_, ?_⟩
          · rw [processValue_cb]
            simp [hcd]
          · exact processValue_lookup_cid _ _ _ _ _ _ _ _
              (alookup_aupdate_self _ _ _ hs)
        · simp only [Bool.not_eq_true] at hex
          simp only [hex, Bool.false_eq_true, if_false]
          refine ⟨c.cid, ?_, ?_⟩
          · rw [processValue_cb]
            simp [hcd]
          · exact processValue_lookup_cid _ _ _ _ _ _ _ _ hl
  · intro es k cid c hlk hne
    simp [invokeCancel, hlk, hne]
  · intro es k c hlk
    refine ⟨by simp [invokeCancel, hlk], fun k' hk' =>
      alookup_aerase_ne es k k' hk'⟩
  · intro es k cid h
    simp [invokeCancel, h]

theorem C4_release_callback_witness :
    (∃ cid, (mapGo (K := Nat) (V := Nat) (S := Unit) none
        { cancelDest := true } ⟨[], 0⟩ () 1
        (some fun k => (k, none)) 0).cb =
        some ((({ cancelDest := true } : Args Nat Nat).setID).getD 1, cid) ∧
      ∃ c, alookup (mapGo (K := Nat) (V := Nat) (S := Unit) none
          { cancelDest := true } ⟨[], 0⟩ () 1
          (some fun k => (k, none)) 0).state.entries
          ((({ cancelDest := true } : Args Nat Nat).setID).getD 1) =
            some c ∧ c.cid = cid) ∧
    (∀ (es : List (Nat × CellI Nat)) (k : Nat) (cid : Nat) (c : CellI Nat),
      alookup es k = some c → c.cid ≠ cid → invokeCancel es k cid = es) ∧
    (∀ (es : List (Nat × CellI Nat)) (k : Nat) (c : CellI Nat),
      alookup es k = some c → invokeCancel es k c.cid = aerase es k ∧
      ∀ k', k' ≠ k → alookup (aerase es k) k' = alookup es k') ∧
    (∀ (es : List (Nat × CellI Nat)) (k : Nat) (cid : Nat),
      alookup es k = none → invokeCancel es k cid = es) :=
  C4_release_callback (K := Nat) (V := Nat) (S := Unit) none
    { cancelDest := true } ⟨[], 0⟩ () 1 (some fun k => (k, none)) 0 rfl rfl

/-- C5: on a miss whose fetch fails, with a default configured and
`Must` not set, the resolution forcibly stores the default into the cell
(no error stored) and returns it with no error; and any resolution of a
key whose cell holds an error-free stored default returns that cached
value with no error and without invoking fetch, the stored result left
intact — so later differently-failing fetch functions are never run. -/
theorem C5_default_value_cached {K V S : Type} [DecidableEq K]
    [Inhabited V] :
    (∀ (pol : Option (EvictPolicy K V S)) (a : Args K V) (st : MState K V)
       (ps : S) (id : K) (f : K → V × Option GoErr) (now : Nat)
       (d : V) (e : GoErr),
      a.clear = false → a.setID = none → a.setValue = none →
      a.dontFetch = false → a.must = false → a.maxSize = 0 →
      a.defaultValue = some d → (f id).2 = some e →
      alookup st.entries id = none →
      (mapGo pol a st ps id (some f) now).value = d ∧
      (mapGo pol a st ps id (some f) now).err = none ∧
      (mapGo pol a st ps id (some f) now).fetched = true ∧
      ∃ c, alookup (mapGo pol a st ps id (some f) now).state.entries id =
          some c ∧ c.cell.val = some ⟨d, none, now⟩) ∧
    (∀ (pol : Option (EvictPolicy K V S)) (a : Args K V) (st : MState K V)
       (ps : S) (id : K) (g : Option (K → V × Option GoErr)) (now : Nat)
       (d : V) (t : Nat) (c : CellI V),
      a.clear = false → a.setID = none → a.setValue = none →
      a.refresh = false → a.expiry = none →
      alookup st.entries id = some c → c.cell.val = some ⟨d, none, t⟩ →
      (mapGo pol a st ps id g now).value = d ∧
      (mapGo pol a st ps id g now).err = none ∧
      (mapGo pol a st ps id g now).fetched = false ∧
      ∃ c', alookup (mapGo pol a st ps id g now).state.entries id =
          some c' ∧ c'.cell.val = some ⟨d, none, t⟩) := by
  constructor
  · intro pol a st ps id f now d e hc hid hsv hdf hmust hms hd he habs
    simp only [mapGo, hid, Option.getD_none, hc, Bool.false_eq_true,
      if_false, habs, evictIfFull_maxSize_zero pol a st.entries ps hms]
    have hins : alookup
        (st.entries ++ [(id, (⟨st.nextId, {}⟩ : CellI V))]) id =
          some ⟨st.nextId, {}⟩ := alookup_append_right st.entries id _ habs
    have hinss : (alookup
        (st.entries ++ [(id, (⟨st.nextId, {}⟩ : CellI V))]) id).isSome := by
      simp [hins]
    have key := processValue_fail_default_eq pol a id
      (⟨st.nextId, { val := none, uses := 0, canceled := false }⟩ : CellI V)
      ⟨st.entries ++
        [(id, ⟨st.nextId, { val := none, uses := 0, canceled := false }⟩)],
        st.nextId + 1⟩ ps f now d e rfl hsv hdf hmust hd he
    rw [key]
    refine ⟨rfl, rfl, rfl, ⟨st.nextId,
      { val := some ⟨d, none, now⟩, uses := 1, canceled := false }⟩,
      ?_, rfl⟩
    exact alookup_aupdate_self _ id _ hinss
  · intro pol a st ps id g now d t c hc hid hsv hr hexp hl hv
    have hs : (alookup st.entries id).isSome := by simp [hl]
    have hhit : expiryHit a now c.cell = false := expiryHit_none a now _ hexp
    simp only [mapGo, hid, Option.getD_none, hc, Bool.false_eq_true,
      if_false, hl, hr, hhit]
    have key := processValue_hit_eq pol a id c st ps g now ⟨d, none, t⟩
      hv hsv
    rw [key]
    refine ⟨rfl, rfl, rfl, ⟨c.cid, { c.cell with uses := c.cell.uses + 1 }⟩,
      ?_, ?_⟩
    · exact alookup_aupdate_self _ id _ hs
    · simpa using hv

theorem C5_default_value_cached_witness :
    ((mapGo (K := Nat) (V := Nat) (S := Unit) none
        { defaultValue := some 99 } ⟨[], 0⟩ () 4
        (some fun _ => (0, some (.user 1))) 8).value = 99 ∧
    (mapGo (K := Nat) (V := Nat) (S := Unit) none
        { defaultValue := some 99 } ⟨[], 0⟩ () 4
        (some fun _ => (0, some (.user 1))) 8).err = none ∧
    (mapGo (K := Nat) (V := Nat) (S := Unit) none
        { defaultValue := some 99 } ⟨[], 0⟩ () 4
        (some fun _ => (0, some (.user 1))) 8).fetched = true ∧
    ∃ c, alookup (mapGo (K := Nat) (V := Nat) (S := Unit) none
        { defaultValue := some 99 } ⟨[], 0⟩ () 4
        (some fun _ => (0, some (.user 1))) 8).state.entries 4 =
        some c ∧ c.cell.val = some ⟨99, none, 8⟩) ∧
    ((mapGo (K := Nat) (V := Nat) (S := Unit) none
        { defaultValue := some 99 }
        ⟨[(4, ⟨0, { val := some ⟨99, none, 8⟩, uses := 1,
                    canceled := false }⟩)], 1⟩ () 4
        (some fun _ => (0, some (.user 2))) 9).value = 99 ∧
    (mapGo (K := Nat) (V := Nat) (S := Unit) none
        { defaultValue := some 99 }
        ⟨[(4, ⟨0, { val := some ⟨99, none, 8⟩, uses := 1,
                    canceled := false }⟩)], 1⟩ () 4
        (some fun _ => (0, some (.user 2))) 9).err = none ∧
    (mapGo (K := Nat) (V := Nat) (S := Unit) none
        { defaultValue := some 99 }
        ⟨[(4, ⟨0, { val := some ⟨99, none, 8⟩, uses := 1,
                    canceled := false }⟩)], 1⟩ () 4
        (some fun _ => (0, some (.user 2))) 9).fetched = false ∧
    ∃ c', alookup (mapGo (K := Nat) (V := Nat) (S := Unit) none
        { defaultValue := some 99 }
        ⟨[(4, ⟨0, { val := some ⟨99, none, 8⟩, uses := 1,
                    canceled := false }⟩)], 1⟩ () 4
        (some fun _ => (0, some (.user 2))) 9).state.entries 4 =
        some c' ∧ c'.cell.val = some ⟨99, none, 8⟩) :=
  ⟨(C5_default_value_cached (K := Nat) (V := Nat) (S := Unit)).1 none
      { defaultValue := some 99 } ⟨[], 0⟩ () 4
      (fun _ => (0, some (.user 1))) 8 99 (.user 1)
      rfl rfl rfl rfl rfl rfl rfl rfl rfl,
   (C5_default_value_cached (K := Nat) (V := Nat) (S := Unit)).2 none
      { defaultValue := some 99 }
      ⟨[(4, ⟨0, { val := some ⟨99, none, 8⟩, uses := 1,
                  canceled := false }⟩)], 1⟩ () 4
      (some fun _ => (0, some (.user 2))) 9 99 8
      ⟨0, { val := some ⟨99, none, 8⟩, uses := 1, canceled := false }⟩
      rfl rfl rfl rfl rfl rfl rfl⟩

theorem evictIfFull_not_full {K V S : Type} [DecidableEq K]
    (pol : Option (EvictPolicy K V S)) (a : Args K V)
    (es : List (K × CellI V)) (ps : S)
    (hn : ¬(a.maxSize > 0 ∧ es.length ≥ a.maxSize)) :
    evictIfFull pol a es ps = (es, ps) := by
  unfold evictIfFull
  rw [if_neg hn]

theorem evictIfFull_policy {K V S : Type} [DecidableEq K]
    (p : EvictPolicy K V S) (a : Args K V) (es : List (K × CellI V))
    (ps ps' : S) (k : K)
    (hfull : a.maxSize > 0 ∧ es.length ≥ a.maxSize)
    (hsel : p.selectVictim ps es = (some k, ps')) :
    evictIfFull (some p) a es ps = (aerase es k, ps') := by
  unfold evictIfFull
  rw [if_pos hfull]
  simp only [hsel]

/-- C1 fails as stated: the fallback removal of an arbitrary present key
only happens when NO eviction policy is configured (`evictionPolicy ==
nil`); when a configured policy reports no victim found — as
`NoEvictionPolicy` always does — nothing is removed, so with max-size 1
two sequential insertions leave the map at size 2. -/
theorem C1_counterexample :
    (mapGo (some (noEvictionPolicy Nat Nat))
      ({ maxSize := 1 } : Args Nat Nat)
      (mapGo (some (noEvictionPolicy Nat Nat))
        ({ maxSize := 1 } : Args Nat Nat) (⟨[], 0⟩ : MState Nat Nat) () 1
        (some fun k => (k, none)) 0).state () 2
      (some fun k => (k, none)) 0).state.entries.length = 2 ∧
    ¬ ((mapGo (some (noEvictionPolicy Nat Nat))
      ({ maxSize := 1 } : Args Nat Nat)
      (mapGo (some (noEvictionPolicy Nat Nat))
        ({ maxSize := 1 } : Args Nat Nat) (⟨[], 0⟩ : MState Nat Nat) () 1
        (some fun k => (k, none)) 0).state () 2
      (some fun k => (k, none)) 0).state.entries.length ≤
        ({ maxSize := 1 } : Args Nat Nat).maxSize) := by
  constructor
  · rfl
  · decide

/-- C1 amended: when a maximum size `m ≥ 1` is configured and either no
eviction policy is configured (so the arbitrary-key fallback applies) or
the configured policy always finds a present victim on a non-empty map,
every `Map` call — insertions included — keeps the map's size at most
`m`. (With a configured policy that reports no victim found, such as
`NoEvictionPolicy`, no fallback removal occurs and the bound can be
exceeded, as `C1_counterexample` shows.) -/
theorem C1_size_bound {K V S : Type} [DecidableEq K] [Inhabited V]
    (pol : Option (EvictPolicy K V S)) (a : Args K V) (st : MState K V)
    (ps : S) (id : K) (fetch : Option (K → V × Option GoErr)) (now : Nat)
    (hm : 1 ≤ a.maxSize)
    (hgood : pol = none ∨ ∃ p, pol = some p ∧ SelectsPresent p)
    (hlen : st.entries.length ≤ a.maxSize) :
    (mapGo pol a st ps id fetch now).state.entries.length ≤ a.maxSize := by
  by_cases hc : a.clear = true
  · simp only [mapGo, hc, if_true]
    exact le_trans (length_aerase_le _ _) hlen
  · simp only [Bool.not_eq_true] at hc
    rcases hl : alookup st.entries (a.setID.getD id) with _ | c
    · simp only [mapGo, hc, Bool.false_eq_true, if_false, hl]
      by_cases hfull : a.maxSize > 0 ∧ st.entries.length ≥ a.maxSize
      · have hne : st.entries ≠ [] := by
          intro h0
          rw [h0] at hfull
          simp only [List.length_nil] at hfull
          omega
        rcases hgood with hpol | ⟨p, hpol, hsp⟩
        · subst hpol
          obtain ⟨kv, tl, hes⟩ := List.exists_cons_of_ne_nil hne
          obtain ⟨k, v⟩ := kv
          have hkey : (alookup st.entries k).isSome := by
            rw [hes]
            simp [alookup_head]
          have hev : evictIfFull (none : Option (EvictPolicy K V S)) a
              st.entries ps = (aerase st.entries k, ps) := by
            unfold evictIfFull
            rw [if_pos hfull, hes]
          rw [hev, processValue_entries_length]
          simp only [List.length_append, List.length_singleton]
          have := length_aerase_of_mem st.entries k hkey
          omega
        · subst hpol
          obtain ⟨k, ps', hsel, hkey⟩ := hsp ps st.entries hne
          rw [evictIfFull_policy p a st.entries ps ps' k hfull hsel,
            processValue_entries_length]
          simp only [List.length_append, List.length_singleton]
          have := length_aerase_of_mem st.entries k hkey
          omega
      · rw [evictIfFull_not_full pol a st.entries ps hfull,
          processValue_entries_length]
        simp only [List.length_append, List.length_singleton]
        omega
    · simp only [mapGo, hc, Bool.false_eq_true, if_false, hl]
      by_cases hr : a.refresh = true
      · simp only [hr, if_true, processValue_entries_length, length_aupdate]
        exact hlen
      · simp only [Bool.not_eq_true] at hr
        simp only [hr, Bool.false_eq_true, if_false]
        by_cases hex : expiryHit a now c.cell = true
        · simp only [hex, if_true, processValue_entries_length,
            length_aupdate]
          exact hlen
        · simp only [Bool.not_eq_true] at hex
          simp only [hex, Bool.false_eq_true, if_false,
            processValue_entries_length]
          exact hlen

theorem C1_size_bound_witness :
    (mapGo (K := Nat) (V := Nat) (S := Unit) none
      ({ maxSize := 1 } : Args Nat Nat) ⟨[], 0⟩ () 1
      (some fun k => (k, none)) 0).state.entries.length ≤
      ({ maxSize := 1 } : Args Nat Nat).maxSize :=
  C1_size_bound (K := Nat) (V := Nat) (S := Unit) none { maxSize := 1 }
    ⟨[], 0⟩ () 1 (some fun k => (k, none)) 0 (by decide) (Or.inl rfl)
    (by decide)

/-- C7: LRU `Access` moves an existing key to the front of the recency
order and inserts a new key at the front; `SelectVictim` removes and
returns the back-most tracked key still present in the map, discards
stale tracked keys, and falls back to an arbitrary present key when
tracking is empty; and concretely, inserting keys 1 and 2 at capacity 2,
accessing 1, then inserting 3 evicts key 2 and leaves 1 and 3 present. -/
theorem C7_lru_policy {K V : Type} [DecidableEq K] :
    (∀ (q : List K) (k : K), k ∈ q → lruAccess q k = k :: q.erase k) ∧
    (∀ (q : List K) (k : K), k ∉ q → lruAccess q k = k :: q) ∧
    (∀ (q' : List K) (k : K) (m : List (K × CellI V)),
      (alookup m k).isSome →
      lruSelectVictim (q' ++ [k]) m = (some k, q')) ∧
    (∀ (q' : List K) (k : K) (m : List (K × CellI V)),
      alookup m k = none →
      lruSelectVictim (q' ++ [k]) m = lruSelectVictim q' m) ∧
    (∀ (k : K) (c : CellI V) (tl : List (K × CellI V)),
      lruSelectVictim ([] : List K) ((k, c) :: tl) = (some k, [])) ∧
    (alookup lruRun4.state.entries 2 = none ∧
      (alookup lruRun4.state.entries 1).isSome = true ∧
      (alookup lruRun4.state.entries 3).isSome = true ∧
      lruRun4.state.entries.length = 2 ∧ lruRun4.pstate = [3, 1]) := by
  refine ⟨?_, ?_, ?_, ?_, ?_, ?_⟩
  · intro q k h
    simp [lruAccess, h]
  · intro q k h
    simp [lruAccess, h]
  · intro q' k m h
    simp [lruSelectVictim, lruScan, List.reverse_append, h]
  · intro q' k m h
    simp only [lruSelectVictim, List.reverse_append, List.reverse_cons,
      List.reverse_nil, List.nil_append, List.singleton_append, lruScan,
      h, Option.isSome_none, Bool.false_eq_true, if_false]
  · intro k c tl
    rfl
  · decide

theorem C7_lru_policy_witness :
    (∀ (q : List Nat) (k : Nat), k ∈ q → lruAccess q k = k :: q.erase k) ∧
    (∀ (q : List Nat) (k : Nat), k ∉ q → lruAccess q k = k :: q) ∧
    (∀ (q' : List Nat) (k : Nat) (m : List (Nat × CellI Nat)),
      (alookup m k).isSome →
      lruSelectVictim (q' ++ [k]) m = (some k, q')) ∧
    (∀ (q' : List Nat) (k : Nat) (m : List (Nat × CellI Nat)),
      alookup m k = none →
      lruSelectVictim (q' ++ [k]) m = lruSelectVictim q' m) ∧
    (∀ (k : Nat) (c : CellI Nat) (tl : List (Nat × CellI Nat)),
      lruSelectVictim ([] : List Nat) ((k, c) :: tl) = (some k, [])) ∧
    (alookup lruRun4.state.entries 2 = none ∧
      (alookup lruRun4.state.entries 1).isSome = true ∧
      (alookup lruRun4.state.entries 3).isSome = true ∧
      lruRun4.state.entries.length = 2 ∧ lruRun4.pstate = [3, 1]) :=
  C7_lru_policy (K := Nat) (V := Nat)

theorem mapGo_miss_load_ok_eq {K V S : Type} [DecidableEq K] [Inhabited V]
    (pol : Option (EvictPolicy K V S)) (a : Args K V) (st : MState K V)
    (ps : S) (id : K) (f : K → V × Option GoErr) (now : Nat)
    (hc : a.clear = false) (hid : a.setID = none) (hsv : a.setValue = none)
    (hdf : a.dontFetch = false) (hms : a.maxSize = 0)
    (habs : alookup st.entries id = none) (hok : (f id).2 = none) :
    mapGo pol a st ps id (some f) now =
      ⟨(f id).1, none,
       ⟨aupdate (st.entries ++ [(id, ⟨st.nextId, {}⟩)]) id
          ⟨st.nextId, { val := some ⟨(f id).1, none, now⟩, uses := 1,
                        canceled := false }⟩, st.nextId + 1⟩,
       polAccess pol ps id, true,
       if a.cancelDest then some (id, st.nextId) else none⟩ := by
  simp only [mapGo, hid, Option.getD_none, hc, Bool.false_eq_true,
    if_false, habs, evictIfFull_maxSize_zero pol a st.entries ps hms]
  have key := processValue_load_ok_eq pol a id
    (⟨st.nextId, { val := none, uses := 0, canceled := false }⟩ : CellI V)
    ⟨st.entries ++
      [(id, ⟨st.nextId, { val := none, uses := 0, canceled := false }⟩)],
      st.nextId + 1⟩ ps f now rfl hsv hdf hok
  rw [key]

theorem mapGo_hit_eq {K V S : Type} [DecidableEq K] [Inhabited V]
    (pol : Option (EvictPolicy K V S)) (a : Args K V) (st : MState K V)
    (ps : S) (id : K) (fetch : Option (K → V × Option GoErr)) (now : Nat)
    (c : CellI V) (s : StoredResult V)
    (hc : a.clear = false) (hid : a.setID = none) (hsv : a.setValue = none)
    (hr : a.refresh = false) (hl : alookup st.entries id = some c)
    (hv : c.cell.val = some s) (hnx : expiryHit a now c.cell = false) :
    mapGo pol a st ps id fetch now =
      ⟨s.value, none,
       ⟨aupdate st.entries id
          ⟨c.cid, { c.cell with uses := c.cell.uses + 1 }⟩, st.nextId⟩,
       polAccess pol ps id, false,
       if a.cancelDest then some (id, c.cid) else none⟩ := by
  simp only [mapGo, hid, Option.getD_none, hc, Bool.false_eq_true,
    if_false, hl, hr, hnx]
  rw [processValue_hit_eq pol a id c st ps fetch now s hv hsv]

theorem mapGo_expired_load_ok_eq {K V S : Type} [DecidableEq K]
    [Inhabited V] (pol : Option (EvictPolicy K V S)) (a : Args K V)
    (st : MState K V) (ps : S) (id : K) (f : K → V × Option GoErr)
    (now : Nat) (c : CellI V)
    (hc : a.clear = false) (hid : a.setID = none) (hsv : a.setValue = none)
    (hdf : a.dontFetch = false) (hr : a.refresh = false)
    (hl : alookup st.entries id = some c)
    (hex : expiryHit a now c.cell = true) (hok : (f id).2 = none) :
    mapGo pol a st ps id (some f) now =
      ⟨(f id).1, none,
       ⟨aupdate (aupdate st.entries id ⟨st.nextId, {}⟩) id
          ⟨st.nextId, { val := some ⟨(f id).1, none, now⟩, uses := 1,
                        canceled := false }⟩, st.nextId + 1⟩,
       polAccess pol ps id, true,
       if a.cancelDest then some (id, st.nextId) else none⟩ := by
  simp only [mapGo, hid, Option.getD_none, hc, Bool.false_eq_true,
    if_false, hl, hr, hex, if_true]
  have key := processValue_load_ok_eq pol a id
    (⟨st.nextId, { val := none, uses := 0, canceled := false }⟩ : CellI V)
    ⟨aupdate st.entries id
      ⟨st.nextId, { val := none, uses := 0, canceled := false }⟩,
      st.nextId + 1⟩ ps f now rfl hsv hdf hok
  rw [key]

theorem expiryHit_afterUses {K V : Type} (n : Int) (s : StoredResult V)
    (k : Nat) (now : Nat) :
    expiryHit ({ expiry := some (.afterUses n) } : Args K V) now
      { val := some s, uses := k, canceled := false } =
      decide ((k : Int) ≥ n) := by
  simp only [expiryHit, Cell.isLoaded, Option.isSome_some, Bool.true_and]
  rw [isExpired.eq_def]
  simp

theorem c3State_eq {K V : Type} [DecidableEq K] [Inhabited V] (n : Nat)
    (f : K → V × Option GoErr) (id : K) (now : Nat)
    (hok : (f id).2 = none) :
    ∀ k, 1 ≤ k → k ≤ n →
    c3State (n : Int) f id now k =
      ⟨[(id, ⟨0, { val := some ⟨(f id).1, none, now⟩, uses := k,
                   canceled := false }⟩)], 1⟩ := by
  intro k
  induction k with
  | zero =>
      intro h1 _
      simp at h1
  | succ k ih =>
      intro _ h2
      by_cases hk : k = 0
      · subst hk
        show (c3Step (n : Int) f id now ⟨[], 0⟩).state = _
        unfold c3Step
        rw [mapGo_miss_load_ok_eq (S := Unit) none
          { expiry := some (.afterUses (n : Int)) } ⟨[], 0⟩ () id f now
          rfl rfl rfl rfl rfl rfl hok]
        simp [aupdate]
      · have ihk := ih (by omega) (by omega)
        show (c3Step (n : Int) f id now (c3State (n : Int) f id now k)).state
          = _
        rw [ihk]
        unfold c3Step
        have hnx : expiryHit
            ({ expiry := some (.afterUses (n : Int)) } : Args K V) now
            { val := some ⟨(f id).1, none, now⟩, uses := k,
              canceled := false } = false := by
          rw [expiryHit_afterUses]
          exact decide_eq_false (by omega)
        rw [mapGo_hit_eq (S := Unit) none
          { expiry := some (.afterUses (n : Int)) }
          ⟨[(id, ⟨0, { val := some ⟨(f id).1, none, now⟩, uses := k,
                       canceled := false }⟩)], 1⟩ () id (some f) now
          (⟨0, { val := some ⟨(f id).1, none, now⟩, uses := k,
                 canceled := false }⟩ : CellI V)
          (⟨(f id).1, none, now⟩ : StoredResult V)
          rfl rfl rfl rfl (by simp [alookup]) rfl hnx]
        simp [aupdate]

/-- C3: with `ExpireAfterUses n` (`n ≥ 1`), resolution 1 of a key
fetches; resolutions 2 through n return the cached value without
fetching (each read bumping `uses` by one, so the cell in the map keeps
identity 0 with `uses = k` after `k` resolutions); and resolution n+1
observes `Uses() >= n`, replaces the entry with a fresh cell (new
identity, usage counter restarted at 1) and performs exactly one
refetch. -/
theorem C3_after_uses {K V : Type} [DecidableEq K] [Inhabited V]
    (n : Nat) (f : K → V × Option GoErr) (id : K) (now : Nat)
    (hn : 1 ≤ n) (hok : (f id).2 = none) :
    ((c3Res (K := K) (V := V) (n : Int) f id now 1).fetched = true) ∧
    (∀ k, 2 ≤ k → k ≤ n →
      (c3Res (n : Int) f id now k).fetched = false ∧
      (c3Res (n : Int) f id now k).value = (f id).1 ∧
      (c3Res (n : Int) f id now k).err = none) ∧
    ((c3Res (n : Int) f id now (n + 1)).fetched = true ∧
      ∃ c, alookup (c3Res (n : Int) f id now (n + 1)).state.entries id =
        some c ∧ c.cid = 1 ∧ c.cell.uses = 1) ∧
    (∀ k, 1 ≤ k → k ≤ n →
      ∃ c, alookup (c3State (n : Int) f id now k).entries id = some c ∧
        c.cid = 0 ∧ c.cell.uses = k) := by
  refine ⟨?_, ?_, ?_, ?_⟩
  · show (c3Step (n : Int) f id now (c3State (n : Int) f id now 0)).fetched
      = true
    rw [show c3State (K := K) (V := V) (n : Int) f id now 0 = ⟨[], 0⟩
      from rfl]
    unfold c3Step
    rw [mapGo_miss_load_ok_eq (S := Unit) none
      { expiry := some (.afterUses (n : Int)) } ⟨[], 0⟩ () id f now
      rfl rfl rfl rfl rfl rfl hok]
  · intro k hk2 hkn
    have hnx : expiryHit
        ({ expiry := some (.afterUses (n : Int)) } : Args K V) now
        { val := some ⟨(f id).1, none, now⟩, uses := k - 1,
          canceled := false } = false := by
      rw [expiryHit_afterUses]
      exact decide_eq_false (by omega)
    have hres : c3Res (K := K) (V := V) (n : Int) f id now k =
        ⟨(f id).1, none,
         ⟨aupdate [(id, ⟨0, { val := some ⟨(f id).1, none, now⟩,
                              uses := k - 1, canceled := false }⟩)] id
            ⟨0, { val := some ⟨(f id).1, none, now⟩, uses := k - 1 + 1,
                  canceled := false }⟩, 1⟩,
         (), false, none⟩ := by
      unfold c3Res
      rw [c3State_eq n f id now hok (k - 1) (by omega) (by omega)]
      unfold c3Step
      rw [mapGo_hit_eq (S := Unit) none
        { expiry := some (.afterUses (n : Int)) }
        ⟨[(id, ⟨0, { val := some ⟨(f id).1, none, now⟩, uses := k - 1,
                     canceled := false }⟩)], 1⟩ () id (some f) now
        (⟨0, { val := some ⟨(f id).1, none, now⟩, uses := k - 1,
               canceled := false }⟩ : CellI V)
        (⟨(f id).1, none, now⟩ : StoredResult V)
        rfl rfl rfl rfl (by simp [alookup]) rfl hnx]
      rfl
    rw [hres]
    exact ⟨rfl, rfl, rfl⟩
  · have hex : expiryHit
        ({ expiry := some (.afterUses (n : Int)) } : Args K V) now
        { val := some ⟨(f id).1, none, now⟩, uses := n,
          canceled := false } = true := by
      rw [expiryHit_afterUses]
      exact decide_eq_true (by omega)
    have hres : c3Res (K := K) (V := V) (n : Int) f id now (n + 1) =
        ⟨(f id).1, none,
         ⟨aupdate (aupdate
            [(id, ⟨0, { val := some ⟨(f id).1, none, now⟩, uses := n,
                        canceled := false }⟩)] id ⟨1, {}⟩) id
            ⟨1, { val := some ⟨(f id).1, none, now⟩, uses := 1,
                  canceled := false }⟩, 2⟩,
         (), true, none⟩ := by
      unfold c3Res
      rw [show n + 1 - 1 = n from by omega,
        c3State_eq n f id now hok n hn (le_refl n)]
      unfold c3Step
      rw [mapGo_expired_load_ok_eq (S := Unit) none
        { expiry := some (.afterUses (n : Int)) }
        ⟨[(id, ⟨0, { val := some ⟨(f id).1, none, now⟩, uses := n,
                     canceled := false }⟩)], 1⟩ () id f now
        (⟨0, { val := some ⟨(f id).1, none, now⟩, uses := n,
               canceled := false }⟩ : CellI V)
        rfl rfl rfl rfl rfl (by simp [alookup]) hex hok]
      rfl
    rw [hres]
    refine ⟨rfl, ⟨⟨1, { val := some ⟨(f id).1, none, now⟩,
                        uses := 1,
                        canceled := false }⟩, ?_, rfl, rfl⟩⟩
    simp [aupdate, alookup]
  · intro k h1 h2
    rw [c3State_eq n f id now hok k h1 h2]
    exact ⟨⟨0, { val := some ⟨(f id).1, none, now⟩,
                 uses := k,
                 canceled := false }⟩, by simp [alookup], rfl, rfl⟩

theorem C3_after_uses_witness :
    ((c3Res (K := Nat) (V := Nat) ((2 : Nat) : Int)
        (fun k => (k * 10, none)) 5 3 1).fetched = true) ∧
    (∀ k, 2 ≤ k → k ≤ 2 →
      (c3Res (K := Nat) (V := Nat) ((2 : Nat) : Int)
        (fun k => (k * 10, none)) 5 3 k).fetched = false ∧
      (c3Res (K := Nat) (V := Nat) ((2 : Nat) : Int)
        (fun k => (k * 10, none)) 5 3 k).value =
        ((fun k => (k * 10, (none : Option GoErr))) 5).1 ∧
      (c3Res (K := Nat) (V := Nat) ((2 : Nat) : Int)
        (fun k => (k * 10, none)) 5 3 k).err = none) ∧
    ((c3Res (K := Nat) (V := Nat) ((2 : Nat) : Int)
        (fun k => (k * 10, none)) 5 3 (2 + 1)).fetched = true ∧
      ∃ c, alookup (c3Res (K := Nat) (V := Nat) ((2 : Nat) : Int)
          (fun k => (k * 10, none)) 5 3 (2 + 1)).state.entries 5 =
        some c ∧ c.cid = 1 ∧ c.cell.uses = 1) ∧
    (∀ k, 1 ≤ k → k ≤ 2 →
      ∃ c, alookup (c3State (K := Nat) (V := Nat) ((2 : Nat) : Int)
          (fun k => (k * 10, none)) 5 3 k).entries 5 = some c ∧
        c.cid = 0 ∧ c.cell.uses = k) :=
  C3_after_uses (K := Nat) (V := Nat) 2 (fun k => (k * 10, none)) 5 3
    (by decide) rfl

end GoBeLazy
